import Mathlib

/-!
# Formal model of the jschain chain-integrity core

This file is a shallow embedding of `src/app.js` of the jschain repository:
a single hash-linked list of blocks, a SHA-512 based block digest, link and
chain validators, the longest-chain replacement policy, and models of the
startup path and of the `POST /mineBlock` route.

Modelling conventions:
* JavaScript numbers are modelled at the precision the program actually uses:
  `index` only ever undergoes `+ 1` and equality on integers, so it is an
  `Int`; `timestamp` only ever enters the digest through its decimal string
  form, so it is modelled as a `Nat` (fractional timestamps are outside the
  model); `data` is the opaque payload string.
* `CryptoJS.SHA512(s).toString()` is modelled by a full executable SHA-512
  over the UTF-8 bytes of `s`, rendered as 128 lowercase hex characters
  (the implementation was cross-checked against standard test vectors).
* JavaScript `undefined` results (a function without `return`, indexing an
  empty array) are modelled with `Option`, and a thrown `TypeError` that a
  surrounding `.catch` swallows is modelled by the `none` branch of the
  route models.
-/

namespace JSChain

/-- Right rotation of a 64-bit word represented as a `Nat` below `2 ^ 64`. -/
def rotr (n x : Nat) : Nat := ((x >>> n) ||| (x <<< (64 - n))) % 2 ^ 64

/-- SHA-512 big Sigma-0. -/
def bigSigma0 (x : Nat) : Nat := rotr 28 x ^^^ rotr 34 x ^^^ rotr 39 x

/-- SHA-512 big Sigma-1. -/
def bigSigma1 (x : Nat) : Nat := rotr 14 x ^^^ rotr 18 x ^^^ rotr 41 x

/-- SHA-512 small sigma-0. -/
def smallSigma0 (x : Nat) : Nat := rotr 1 x ^^^ rotr 8 x ^^^ (x >>> 7)

/-- SHA-512 small sigma-1. -/
def smallSigma1 (x : Nat) : Nat := rotr 19 x ^^^ rotr 61 x ^^^ (x >>> 6)

/-- SHA-512 choice function; complement is xor with the 64-bit mask. -/
def chF (x y z : Nat) : Nat := (x &&& y) ^^^ ((x ^^^ (2 ^ 64 - 1)) &&& z)

/-- SHA-512 majority function. -/
def majF (x y z : Nat) : Nat := (x &&& y) ^^^ (x &&& z) ^^^ (y &&& z)

/-- The 80 SHA-512 round constants (FIPS 180-4). -/
def kConstants : List Nat :=
  [0x428A2F98D728AE22, 0x7137449123EF65CD, 0xB5C0FBCFEC4D3B2F, 0xE9B5DBA58189DBBC,
   0x3956C25BF348B538, 0x59F111F1B605D019, 0x923F82A4AF194F9B, 0xAB1C5ED5DA6D8118,
   0xD807AA98A3030242, 0x12835B0145706FBE, 0x243185BE4EE4B28C, 0x550C7DC3D5FFB4E2,
   0x72BE5D74F27B896F, 0x80DEB1FE3B1696B1, 0x9BDC06A725C71235, 0xC19BF174CF692694,
   0xE49B69C19EF14AD2, 0xEFBE4786384F25E3, 0x0FC19DC68B8CD5B5, 0x240CA1CC77AC9C65,
   0x2DE92C6F592B0275, 0x4A7484AA6EA6E483, 0x5CB0A9DCBD41FBD4, 0x76F988DA831153B5,
   0x983E5152EE66DFAB, 0xA831C66D2DB43210, 0xB00327C898FB213F, 0xBF597FC7BEEF0EE4,
   0xC6E00BF33DA88FC2, 0xD5A79147930AA725, 0x06CA6351E003826F, 0x142929670A0E6E70,
   0x27B70A8546D22FFC, 0x2E1B21385C26C926, 0x4D2C6DFC5AC42AED, 0x53380D139D95B3DF,
   0x650A73548BAF63DE, 0x766A0ABB3C77B2A8, 0x81C2C92E47EDAEE6, 0x92722C851482353B,
   0xA2BFE8A14CF10364, 0xA81A664BBC423001, 0xC24B8B70D0F89791, 0xC76C51A30654BE30,
   0xD192E819D6EF5218, 0xD69906245565A910, 0xF40E35855771202A, 0x106AA07032BBD1B8,
   0x19A4C116B8D2D0C8, 0x1E376C085141AB53, 0x2748774CDF8EEB99, 0x34B0BCB5E19B48A8,
   0x391C0CB3C5C95A63, 0x4ED8AA4AE3418ACB, 0x5B9CCA4F7763E373, 0x682E6FF3D6B2B8A3,
   0x748F82EE5DEFB2FC, 0x78A5636F43172F60, 0x84C87814A1F0AB72, 0x8CC702081A6439EC,
   0x90BEFFFA23631E28, 0xA4506CEBDE82BDE9, 0xBEF9A3F7B2C67915, 0xC67178F2E372532B,
   0xCA273ECEEA26619C, 0xD186B8C721C0C207, 0xEADA7DD6CDE0EB1E, 0xF57D4F7FEE6ED178,
   0x06F067AA72176FBA, 0x0A637DC5A2C898A6, 0x113F9804BEF90DAE, 0x1B710B35131C471B,
   0x28DB77F523047D84, 0x32CAAB7B40C72493, 0x3C9EBE0A15C9BEBC, 0x431D67C49C100D4C,
   0x4CC5D4BECB3E42B6, 0x597F299CFC657E2A, 0x5FCB6FAB3AD6FAEC, 0x6C44198C4A475817]

/-- The eight 64-bit working variables of the SHA-512 compression function. -/
structure Sha512State where
  a : Nat
  b : Nat
  c : Nat
  d : Nat
  e : Nat
  f : Nat
  g : Nat
  h : Nat
  deriving Repr, DecidableEq

/-- The SHA-512 initial hash value (FIPS 180-4). -/
def initialState : Sha512State :=
  ⟨0x6A09E667F3BCC908, 0xBB67AE8584CAA73B, 0x3C6EF372FE94F82B, 0xA54FF53A5F1D36F1,
   0x510E527FADE682D1, 0x9B05688C2B3E6C1F, 0x1F83D9ABFB41BD6B, 0x5BE0CD19137E2179⟩

/-- UTF-8 encoding of one character, as the list of its byte values
(CryptoJS parses string input as UTF-8 by default). -/
def utf8Bytes (ch : Char) : List Nat :=
  let n := ch.toNat
  if n < 0x80 then [n]
  else if n < 0x800 then [0xC0 + n / 0x40, 0x80 + n % 0x40]
  else if n < 0x10000 then
    [0xE0 + n / 0x1000, 0x80 + (n / 0x40) % 0x40, 0x80 + n % 0x40]
  else
    [0xF0 + n / 0x40000, 0x80 + (n / 0x1000) % 0x40, 0x80 + (n / 0x40) % 0x40, 0x80 + n % 0x40]

/-- UTF-8 byte sequence of a string. -/
def strBytes (s : String) : List Nat := (s.data.map utf8Bytes).foldr (· ++ ·) []

/-- SHA-512 padding: append `0x80`, zeros, and the 128-bit big-endian bit
length, reaching a multiple of 128 bytes. -/
def padMessage (msg : List Nat) : List Nat :=
  let L := msg.length
  msg ++ [0x80] ++ List.replicate ((240 - (L + 1) % 128) % 128) 0 ++
    (List.range 16).map (fun i => ((8 * L) >>> (8 * (15 - i))) % 256)

/-- Split a byte list into 128-byte blocks. -/
def toBlocks (bytes : List Nat) : List (List Nat) :=
  if hb : bytes = [] then []
  else bytes.take 128 :: toBlocks (bytes.drop 128)
termination_by bytes.length
decreasing_by
  have := List.length_pos.mpr hb
  simp [List.length_drop]
  omega

/-- Big-endian assembly of a byte list into one word. -/
def bytesToWord (bs : List Nat) : Nat := bs.foldl (fun acc bt => acc * 256 + bt) 0

/-- The sixteen 64-bit message words of one 128-byte block. -/
def blockWords (block : List Nat) : List Nat :=
  (List.range 16).map (fun i => bytesToWord ((block.drop (8 * i)).take 8))

/-- Extend the sixteen message words to the 80-entry message schedule. -/
def schedule (ws : List Nat) : List Nat :=
  ((List.range 64).foldl
    (fun (w : Array Nat) t =>
      let i := t + 16
      w.push ((smallSigma1 (w.getD (i - 2) 0) + w.getD (i - 7) 0 +
        smallSigma0 (w.getD (i - 15) 0) + w.getD (i - 16) 0) % 2 ^ 64))
    ws.toArray).toList

/-- One SHA-512 compression round, fed one `(K, W)` constant/schedule pair. -/
def roundStep (st : Sha512State) (kw : Nat × Nat) : Sha512State :=
  let t1 := (st.h + bigSigma1 st.e + chF st.e st.f st.g + kw.1 + kw.2) % 2 ^ 64
  let t2 := (bigSigma0 st.a + majF st.a st.b st.c) % 2 ^ 64
  { a := (t1 + t2) % 2 ^ 64, b := st.a, c := st.b, d := st.c,
    e := (st.d + t1) % 2 ^ 64, f := st.e, g := st.f, h := st.g }

/-- Wrapping 64-bit addition of two states, fieldwise. -/
def addState (x y : Sha512State) : Sha512State :=
  { a := (x.a + y.a) % 2 ^ 64, b := (x.b + y.b) % 2 ^ 64, c := (x.c + y.c) % 2 ^ 64,
    d := (x.d + y.d) % 2 ^ 64, e := (x.e + y.e) % 2 ^ 64, f := (x.f + y.f) % 2 ^ 64,
    g := (x.g + y.g) % 2 ^ 64, h := (x.h + y.h) % 2 ^ 64 }

/-- Process one 128-byte block: 80 rounds, then add back the incoming state. -/
def processBlock (st : Sha512State) (block : List Nat) : Sha512State :=
  addState st ((kConstants.zip (schedule (blockWords block))).foldl roundStep st)

/-- The eight words of a state, in output order. -/
def stateWords (st : Sha512State) : List Nat :=
  [st.a, st.b, st.c, st.d, st.e, st.f, st.g, st.h]

/-- The eight 64-bit words of the SHA-512 digest of a string. -/
def sha512words (s : String) : List Nat :=
  stateWords ((toBlocks (padMessage (strBytes s))).foldl processBlock initialState)

/-- Lowercase hex digit for a value below 16. -/
def hexDigit (n : Nat) : Char := if n < 10 then Char.ofNat (48 + n) else Char.ofNat (87 + n)

/-- The 16 hex characters of one 64-bit word, most significant digit first. -/
def hexChars16 (w : Nat) : List Char :=
  (List.range 16).map (fun i => hexDigit ((w >>> (4 * (15 - i))) % 16))

/-- Hex rendering of a word list. -/
def wordsHexChars : List Nat → List Char
  | [] => []
  | w :: ws => hexChars16 w ++ wordsHexChars ws

/-- SHA-512 digest of a string as a 128-character lowercase hex string; this
models `CryptoJS.SHA512(s).toString()` from `src/app.js`. -/
def sha512hex (s : String) : String := String.mk (wordsHexChars (sha512words s))

/-- One block of the chain, translated from the `Block` class of
`src/app.js` (lines 14-30): fields `index`, `previousHash`, `timestamp`,
`data`, `hash`, all set by the constructor and never mutated. -/
structure Block where
  index : Int
  previousHash : String
  timestamp : Nat
  data : String
  hash : String
  deriving Repr, DecidableEq

/-- The string handed to the hasher: `index + previousHash + timestamp + data`
from `calculateHash` (line 50) is JavaScript string concatenation of the
decimal forms of the numbers with the two strings, with no separators. -/
def hashInput (index : Int) (previousHash : String) (timestamp : Nat) (data : String) : String :=
  toString index ++ previousHash ++ toString timestamp ++ data

/-- Translation of `calculateHash` (lines 49-51 of `src/app.js`). -/
def calculateHash (index : Int) (previousHash : String) (timestamp : Nat) (data : String) :
    String :=
  sha512hex (hashInput index previousHash timestamp data)

/-- Translation of `calculateHashForBlock` (lines 53-55 of `src/app.js`). -/
def calculateHashForBlock (block : Block) : String :=
  calculateHash block.index block.previousHash block.timestamp block.data

/-- Translation of `generateNextBlock` (lines 62-71 of `src/app.js`). The JS
function reads the chain's latest block and the current clock itself; the
model receives that block and the timestamp as arguments, which is the only
non-determinism of the function. -/
def generateNextBlock (previousBlock : Block) (nextTimestamp : Nat) (blockData : String) :
    Block :=
  let nextIndex := previousBlock.index + 1
  let nextHash := calculateHash nextIndex previousBlock.hash nextTimestamp blockData
  ⟨nextIndex, previousBlock.hash, nextTimestamp, blockData, nextHash⟩

/-- Translation of `getGenesisBlock` (lines 78-80 of `src/app.js`): the five
field values are hard-coded literals; in particular the `hash` field is a
64-character literal, not a recomputed digest. -/
def getGenesisBlock : Block :=
  ⟨0, "0", 1465154705, "JSChain genesis block",
   "816534932c2b7154836da6afc367695e6337db8a921823784c14378abed4f7d7"⟩

/-- Translation of `isValidNewBlock` (lines 108-121 of `src/app.js`): the
three checks in source order, each early-returning `false`. -/
def isValidNewBlock (newBlock previousBlock : Block) : Bool :=
  if previousBlock.index + 1 ≠ newBlock.index then false
  else if previousBlock.hash ≠ newBlock.previousHash then false
  else if calculateHashForBlock newBlock ≠ newBlock.hash then false
  else true

/-- The validation loop of `isValidChain` (lines 91-98 of `src/app.js`). The
JS loop carries a `tempBlocks` array, but `tempBlocks[i - 1]` always equals
`blockchainToValidate[i - 1]`, so the loop is exactly this pairwise check of
each block against its predecessor. -/
def checkLinks (previousBlock : Block) : List Block → Bool
  | [] => true
  | blk :: rest => isValidNewBlock blk previousBlock && checkLinks blk rest

/-- Translation of `isValidChain` (lines 87-100 of `src/app.js`). The head
comparison in JS is `JSON.stringify(chain[0]) !== JSON.stringify(getGenesisBlock())`,
which on the modelled field types is exactly structural equality of all five
fields (fixed key order, injective serialisation). On an empty array,
`chain[0]` is `undefined`, whose stringification can never equal the
genesis object's, so the empty chain is rejected. -/
def isValidChain (blockchainToValidate : List Block) : Bool :=
  match blockchainToValidate with
  | [] => false
  | g :: rest => if g ≠ getGenesisBlock then false else checkLinks g rest

/-- Translation of `getLatestBlock` (lines 140-142 of `src/app.js`):
`blockchain[blockchain.length - 1]`, which is `undefined` on an empty array. -/
def getLatestBlock (blockchain : List Block) : Option Block :=
  blockchain.getLast?

/-- Translation of `addBlock` (lines 36-40 of `src/app.js`). On an empty
chain, `getLatestBlock()` is `undefined` and `isValidNewBlock` throws a
`TypeError` reading `.index`; that exceptional outcome is `none`. -/
def addBlock (blockchain : List Block) (newBlock : Block) : Option (List Block) :=
  match getLatestBlock blockchain with
  | some latest =>
      some (if isValidNewBlock newBlock latest then blockchain ++ [newBlock] else blockchain)
  | none => none

/-- Translation of `replaceChain` (lines 127-134 of `src/app.js`). The first
component is the value of the global `blockchain` after the call; the second
component is the call's return value: the JS function body contains no
`return` statement, so every call returns `undefined`, modelled `none`. -/
def replaceChain (blockchain newBlocks : List Block) : List Block × Option Bool :=
  if isValidChain newBlocks = true ∧ newBlocks.length > blockchain.length then
    (newBlocks, none)
  else
    (blockchain, none)

/-- Translation of the chain-loading step of `startup` (lines 165-169 of
`src/app.js`): `blockchain = result.docs`, where `result.docs` is whatever
the store's `find` returns for the selector `index >= 0`, in store order.
No genesis block is ever seeded here. -/
def startupChain (docs : List Block) : List Block :=
  docs.filter (fun blk => decide (0 ≤ blk.index))

/-- Response value sent by a route handler. The `POST /mineBlock` handler of
`src/app.js` only ever calls `res.json(newBlock)`; the `error` constructor
exists so that the absence of any error response is expressible. -/
inductive MineResponse where
  | json (blk : Block)
  | error (msg : String)
  deriving Repr, DecidableEq

/-- Observable outcome of one `POST /mineBlock` request: the in-memory chain
after the call, the list of blocks handed to `insertBlock` (the store), and
the response sent to the caller (`none` when the handler only logged). -/
structure MineOutcome where
  blockchain : List Block
  inserted : List Block
  response : Option MineResponse
  deriving Repr, DecidableEq

/-- Translation of the fulfilled-promise callback of `POST /mineBlock`
(lines 218-224 of `src/app.js`), applied to the resolved block: it calls
`addBlock(newBlock)` (which appends only when validation passes), then
unconditionally `insertBlock(newBlock)` and `res.json(newBlock)`. When
`addBlock` throws (empty chain), the `.catch` only logs: nothing is
persisted and no response is sent. -/
def mineBlockThen (blockchain : List Block) (newBlock : Block) : MineOutcome :=
  match addBlock blockchain newBlock with
  | some chain2 => ⟨chain2, [newBlock], some (MineResponse.json newBlock)⟩
  | none => ⟨blockchain, [], none⟩

/-- Translation of the whole `POST /mineBlock` route (lines 214-228 of
`src/app.js`): build the next block from the latest block, the clock and the
payload, then run the callback; on an empty chain `generateNextBlock`
rejects and the `.catch` only logs. -/
def mineBlockRoute (blockchain : List Block) (nextTimestamp : Nat) (payload : String) :
    MineOutcome :=
  match getLatestBlock blockchain with
  | some prev => mineBlockThen blockchain (generateNextBlock prev nextTimestamp payload)
  | none => ⟨blockchain, [], none⟩

/-- Translation of `POST /generategenesis` (lines 232-236 of `src/app.js`):
unconditionally persist the genesis constant and return it; the pair is
(blocks handed to `insertBlock`, response body). -/
def generateGenesisRoute : List Block × Block :=
  ([getGenesisBlock], getGenesisBlock)

/-- Repeated mining starting from a given chain: for each `(timestamp,
payload)` step, append the block built by `generateNextBlock` on top of the
current latest block (the construction described by the chain-validity
round-trip property). -/
def mineChain (blockchain : List Block) : List (Nat × String) → List Block
  | [] => blockchain
  | (t, d) :: steps =>
      match getLatestBlock blockchain with
      | some prev => mineChain (blockchain ++ [generateNextBlock prev t d]) steps
      | none => blockchain

/-- All eight working variables of a state are reduced 64-bit words. -/
def boundedState (st : Sha512State) : Prop :=
  st.a < 2 ^ 64 ∧ st.b < 2 ^ 64 ∧ st.c < 2 ^ 64 ∧ st.d < 2 ^ 64 ∧
    st.e < 2 ^ 64 ∧ st.f < 2 ^ 64 ∧ st.g < 2 ^ 64 ∧ st.h < 2 ^ 64

/-- The digest of a string viewed as a tuple of eight 64-bit words; this
packaging exhibits that the digest ranges over a finite type. -/
def digestFin (s : String) : Fin 8 → Fin (2 ^ 64) := fun i =>
  ⟨(sha512words s).getD i.val 0 % 2 ^ 64, Nat.mod_lt _ (by norm_num)⟩

/-- The tamper-detection property exactly as claimed: from any valid link,
changing any single field of the candidate block to any different value,
without recomputing its stored hash, always makes the link validator
reject. -/
def tamperDetectionClaim : Prop :=
  ∀ b p : Block, isValidNewBlock b p = true →
    (∀ i, i ≠ b.index → isValidNewBlock { b with index := i } p = false) ∧
    (∀ s, s ≠ b.previousHash → isValidNewBlock { b with previousHash := s } p = false) ∧
    (∀ t, t ≠ b.timestamp → isValidNewBlock { b with timestamp := t } p = false) ∧
    (∀ d, d ≠ b.data → isValidNewBlock { b with data := d } p = false)

/-- A block whose link validation against the genesis block fails (its index
skips a step), but whose stored hash is consistent with its own fields. -/
def badBlockC6 : Block :=
  ⟨2, getGenesisBlock.hash, 1465154706,
   "x", calculateHash 2 getGenesisBlock.hash 1465154706 "x"⟩

/-- First block of the separator-collision pair: timestamp `1`, data `"2x"`. -/
def collideA : Block := generateNextBlock getGenesisBlock 1 "2x"

/-- Second block of the separator-collision pair: timestamp `12`, data `"x"`,
same stored hash as `collideA`; the two hash inputs are the identical string. -/
def collideB : Block := { collideA with timestamp := 12, data := "x" }

/-! ## Helper lemmas about the hasher -/

theorem hexChars16_length (w : Nat) : (hexChars16 w).length = 16 := by
  simp [hexChars16]

theorem wordsHexChars_length (ws : List Nat) :
    (wordsHexChars ws).length = 16 * ws.length := by
  induction ws with
  | nil => simp [wordsHexChars]
  | cons w ws ih =>
      simp [wordsHexChars, hexChars16_length, ih]
      ring

theorem sha512words_length (s : String) : (sha512words s).length = 8 := by
  simp [sha512words, stateWords]

theorem sha512hex_length (s : String) : (sha512hex s).length = 128 := by
  have h1 : (sha512hex s).length = (wordsHexChars (sha512words s)).length := rfl
  rw [h1, wordsHexChars_length, sha512words_length]

theorem boundedState_addState (x y : Sha512State) : boundedState (addState x y) := by
  refine ⟨?_, ?_, ?_, ?_, ?_, ?_, ?_, ?_⟩ <;>
    · show _ % 2 ^ 64 < 2 ^ 64
      exact Nat.mod_lt _ (by norm_num)

theorem boundedState_processBlock (st : Sha512State) (block : List Nat) :
    boundedState (processBlock st block) := boundedState_addState _ _

theorem boundedState_foldl (blocks : List (List Nat)) :
    ∀ st, boundedState st → boundedState (blocks.foldl processBlock st) := by
  induction blocks with
  | nil => exact fun st h => h
  | cons blk rest ih =>
      intro st _
      rw [List.foldl_cons]
      exact ih (processBlock st blk) (boundedState_processBlock st blk)

theorem boundedState_initialState : boundedState initialState := by
  unfold boundedState initialState
  norm_num

theorem sha512words_getD_lt (s : String) (i : Nat) :
    (sha512words s).getD i 0 < 2 ^ 64 := by
  have hb := boundedState_foldl (toBlocks (padMessage (strBytes s))) initialState
    boundedState_initialState
  obtain ⟨h1, h2, h3, h4, h5, h6, h7, h8⟩ := hb
  unfold sha512words stateWords
  rcases i with _|_|_|_|_|_|_|_|i <;> simp [List.getD] <;> first | assumption | norm_num

theorem sha512words_eq_of_digestFin_eq {s1 s2 : String}
    (h : digestFin s1 = digestFin s2) : sha512words s1 = sha512words s2 := by
  have hk : ∀ k : Nat, k < 8 →
      (sha512words s1).getD k 0 = (sha512words s2).getD k 0 := by
    intro k hklt
    have hc := congrFun h ⟨k, hklt⟩
    simp only [digestFin, Fin.mk.injEq] at hc
    rwa [Nat.mod_eq_of_lt (sha512words_getD_lt s1 k),
      Nat.mod_eq_of_lt (sha512words_getD_lt s2 k)] at hc
  have e0 := hk 0 (by norm_num)
  have e1 := hk 1 (by norm_num)
  have e2 := hk 2 (by norm_num)
  have e3 := hk 3 (by norm_num)
  have e4 := hk 4 (by norm_num)
  have e5 := hk 5 (by norm_num)
  have e6 := hk 6 (by norm_num)
  have e7 := hk 7 (by norm_num)
  unfold sha512words stateWords at e0 e1 e2 e3 e4 e5 e6 e7 ⊢
  simp only [List.getD, List.get?, Option.getD_some] at e0 e1 e2 e3 e4 e5 e6 e7
  rw [e0, e1, e2, e3, e4, e5, e6, e7]

theorem exists_calculateHash_collision (i : Int) (p : String) (t : Nat) :
    ∃ d1 d2 : String, d1 ≠ d2 ∧ calculateHash i p t d1 = calculateHash i p t d2 := by
  obtain ⟨n, m, hnm, heq⟩ := Finite.exists_ne_map_eq_of_infinite
    (fun n : ℕ => digestFin (hashInput i p t (String.mk (List.replicate n 'a'))))
  refine ⟨String.mk (List.replicate n 'a'), String.mk (List.replicate m 'a'), ?_, ?_⟩
  · intro hc
    apply hnm
    have hlen := congrArg String.length hc
    simpa [show ∀ l : List Char, (String.mk l).length = l.length from fun _ => rfl]
      using hlen
  · have hw := sha512words_eq_of_digestFin_eq heq
    unfold calculateHash sha512hex
    rw [hw]

/-! ## Helper lemmas about the validators -/

theorem validNew_iff (nb pb : Block) :
    isValidNewBlock nb pb = true ↔
      nb.index = pb.index + 1 ∧ nb.previousHash = pb.hash ∧
        calculateHash nb.index nb.previousHash nb.timestamp nb.data = nb.hash := by
  unfold isValidNewBlock calculateHashForBlock
  constructor
  · intro hv
    by_cases h1 : pb.index + 1 ≠ nb.index
    · rw [if_pos h1] at hv
      exact Bool.noConfusion hv
    · rw [if_neg h1] at hv
      by_cases h2 : pb.hash ≠ nb.previousHash
      · rw [if_pos h2] at hv
        exact Bool.noConfusion hv
      · rw [if_neg h2] at hv
        by_cases h3 : calculateHash nb.index nb.previousHash nb.timestamp nb.data ≠ nb.hash
        · rw [if_pos h3] at hv
          exact Bool.noConfusion hv
        · exact ⟨(not_ne_iff.mp h1).symm, (not_ne_iff.mp h2).symm, not_ne_iff.mp h3⟩
  · rintro ⟨hi, hp, hh⟩
    rw [if_neg (not_not_intro hi.symm), if_neg (not_not_intro hp.symm),
      if_neg (not_not_intro hh)]

theorem validNew_false_iff (nb pb : Block) :
    isValidNewBlock nb pb = false ↔
      ¬(nb.index = pb.index + 1 ∧ nb.previousHash = pb.hash ∧
        calculateHash nb.index nb.previousHash nb.timestamp nb.data = nb.hash) := by
  rw [← validNew_iff, Bool.eq_false_iff, ne_eq]

theorem genNextValid (prev : Block) (t : Nat) (d : String) :
    isValidNewBlock (generateNextBlock prev t d) prev = true := by
  rw [validNew_iff]
  exact ⟨rfl, rfl, rfl⟩

theorem isValidChain_cons (g : Block) (rest : List Block) :
    isValidChain (g :: rest) =
      if g ≠ getGenesisBlock then false else checkLinks g rest := rfl

theorem validChain_singleton : isValidChain [getGenesisBlock] = true := by
  simp [isValidChain, checkLinks]

theorem validChain_two (t : Nat) (d : String) :
    isValidChain [getGenesisBlock, generateNextBlock getGenesisBlock t d] = true := by
  simp [isValidChain, checkLinks, genNextValid]

theorem checkLinks_append (l : List Block) : ∀ (p q b : Block),
    checkLinks p l = true → (p :: l).getLast? = some q → isValidNewBlock b q = true →
      checkLinks p (l ++ [b]) = true := by
  induction l with
  | nil =>
      intro p q b _ hq hv
      have hpq : p = q := by simpa using hq
      subst hpq
      simp [checkLinks, hv]
  | cons x xs ih =>
      intro p q b hc hq hv
      rw [List.cons_append]
      simp only [checkLinks, Bool.and_eq_true] at hc ⊢
      refine ⟨hc.1, ?_⟩
      exact ih x q b hc.2 (by simpa [List.getLast?_cons_cons] using hq) hv

theorem isValidChain_append (chain : List Block) (q b : Block)
    (hc : isValidChain chain = true) (hl : getLatestBlock chain = some q)
    (hv : isValidNewBlock b q = true) : isValidChain (chain ++ [b]) = true := by
  match chain with
  | [] => exact Bool.noConfusion hc
  | g :: rest =>
      rw [List.cons_append, isValidChain_cons]
      rw [isValidChain_cons] at hc
      by_cases hg : g = getGenesisBlock
      · rw [if_neg (not_not_intro hg)] at hc ⊢
        exact checkLinks_append rest g q b hc hl hv
      · rw [if_pos hg] at hc
        exact Bool.noConfusion hc

theorem mineChain_preserves (steps : List (Nat × String)) :
    ∀ chain, isValidChain chain = true → isValidChain (mineChain chain steps) = true := by
  induction steps with
  | nil => exact fun chain hc => hc
  | cons s rest ih =>
      intro chain hc
      obtain ⟨t, d⟩ := s
      unfold mineChain
      cases hl : getLatestBlock chain with
      | none => simp only [hl]; exact hc
      | some prev =>
          simp only [hl]
          exact ih _ (isValidChain_append chain prev _ hc hl (genNextValid prev t d))

theorem checkLinks_iff (l : List Block) : ∀ p : Block,
    checkLinks p l = true ↔
      ∀ i (h : i < l.length),
        isValidNewBlock (l.get ⟨i, h⟩) ((p :: l).get ⟨i, Nat.lt_succ_of_lt h⟩) = true := by
  induction l with
  | nil =>
      intro p
      constructor
      · intro _ i h
        exact absurd h (Nat.not_lt_zero i)
      · intro _
        rfl
  | cons b rest ih =>
      intro p
      simp only [checkLinks, Bool.and_eq_true, ih b]
      constructor
      · rintro ⟨hb, hrest⟩ i h
        match i with
        | 0 => exact hb
        | j + 1 => exact hrest j (Nat.lt_of_succ_lt_succ h)
      · intro hall
        exact ⟨hall 0 (Nat.succ_pos _),
          fun j hj => hall (j + 1) (Nat.succ_lt_succ hj)⟩

theorem isValidChain_iff (s : List Block) :
    isValidChain s = true ↔
      s ≠ [] ∧ s.head? = some getGenesisBlock ∧
        ∀ i (h1 : 1 ≤ i) (h2 : i < s.length),
          isValidNewBlock (s.get ⟨i, h2⟩)
            (s.get ⟨i - 1, Nat.lt_of_le_of_lt (Nat.sub_le i 1) h2⟩) = true := by
  match s with
  | [] => simp [isValidChain]
  | g :: rest =>
      rw [isValidChain_cons]
      by_cases hg : g = getGenesisBlock
      · subst hg
        rw [if_neg (not_not_intro rfl), checkLinks_iff rest getGenesisBlock]
        constructor
        · intro hck
          refine ⟨by simp, rfl, ?_⟩
          intro i h1 h2
          obtain ⟨j, rfl⟩ : ∃ j, i = j + 1 := ⟨i - 1, by omega⟩
          exact hck j (Nat.lt_of_succ_lt_succ h2)
        · rintro ⟨-, -, hall⟩ j hj
          exact hall (j + 1) (Nat.le_add_left 1 j) (Nat.succ_lt_succ hj)
      · rw [if_pos hg]
        constructor
        · intro hfalse
          exact Bool.noConfusion hfalse
        · rintro ⟨-, hhead, -⟩
          exact absurd (Option.some.inj hhead) hg

/-! ## Claim theorems -/

/-- C1. The link validator `isValidNewBlock` accepts a candidate block
against a predecessor exactly when the candidate's index is the successor of
the predecessor's, the candidate's `previousHash` is the predecessor's
`hash`, and the digest recomputed over the candidate's `(index,
previousHash, timestamp, data)` equals the candidate's stored `hash`. -/
theorem isValidNewBlock_spec (candidate predecessor : Block) :
    isValidNewBlock candidate predecessor = true ↔
      candidate.index = predecessor.index + 1 ∧
      candidate.previousHash = predecessor.hash ∧
      calculateHash candidate.index candidate.previousHash candidate.timestamp
        candidate.data = candidate.hash :=
  validNew_iff candidate predecessor

/-- C2. The chain validator `isValidChain` accepts a sequence exactly when it
is non-empty, its first element is structurally equal to the genesis
constant, and every later element passes link validation against its
predecessor. -/
theorem isValidChain_spec (s : List Block) :
    isValidChain s = true ↔
      s ≠ [] ∧ s.head? = some getGenesisBlock ∧
        ∀ i (h1 : 1 ≤ i) (h2 : i < s.length),
          isValidNewBlock (s.get ⟨i, h2⟩)
            (s.get ⟨i - 1, Nat.lt_of_le_of_lt (Nat.sub_le i 1) h2⟩) = true :=
  isValidChain_iff s

/-- Witness for C2: a concrete two-block mined chain is accepted. -/
theorem isValidChain_spec_instance :
    isValidChain [getGenesisBlock, generateNextBlock getGenesisBlock 1465154709 "w2"]
      = true := by
  apply (isValidChain_spec _).mpr
  refine ⟨by simp, rfl, ?_⟩
  intro i h1 h2
  have h4 : i < 2 := h2
  have h3 : i = 1 := by omega
  subst h3
  exact genNextValid getGenesisBlock 1465154709 "w2"

/-- C3. `replaceChain` installs the candidate exactly when the candidate is
a valid chain strictly longer than the current one, and in every other case
the current chain is returned unchanged. -/
theorem replaceChain_spec (current candidate : List Block) :
    (isValidChain candidate = true ∧ candidate.length > current.length →
        (replaceChain current candidate).1 = candidate) ∧
    (¬(isValidChain candidate = true ∧ candidate.length > current.length) →
        (replaceChain current candidate).1 = current) := by
  unfold replaceChain
  constructor
  · intro h
    rw [if_pos h]
  · intro h
    rw [if_neg h]

/-- Witness for C3: a strictly longer valid candidate is installed, and a
strictly shorter one is rejected with the current chain kept. -/
theorem replaceChain_spec_instance :
    (replaceChain [getGenesisBlock]
        [getGenesisBlock, generateNextBlock getGenesisBlock 1465154706 "hello"]).1 =
      [getGenesisBlock, generateNextBlock getGenesisBlock 1465154706 "hello"] ∧
    (replaceChain [getGenesisBlock, generateNextBlock getGenesisBlock 1465154706 "hello"]
        [getGenesisBlock]).1 =
      [getGenesisBlock, generateNextBlock getGenesisBlock 1465154706 "hello"] :=
  ⟨(replaceChain_spec _ _).1 ⟨validChain_two 1465154706 "hello", by decide⟩,
   (replaceChain_spec _ _).2 (by rintro ⟨-, hlen⟩; exact absurd hlen (by decide))⟩

/-- C4. A chain built from the genesis-only chain by repeatedly appending
the block produced by `generateNextBlock` on top of the current latest
block is accepted by `isValidChain`, for every number of steps and every
sequence of timestamps and payloads. -/
theorem minedChain_isValidChain (steps : List (Nat × String)) :
    isValidChain (mineChain [getGenesisBlock] steps) = true :=
  mineChain_preserves steps [getGenesisBlock] validChain_singleton

/-- C5, counterexample. The tamper-detection claim as stated is false: the
digest has only `2 ^ 512` possible values while the data field ranges over
infinitely many strings, so some two distinct data values collide, and
altering the data field of a valid block to such a colliding value leaves
`isValidNewBlock` accepting. -/
theorem tamperDetectionClaim_refuted : ¬ tamperDetectionClaim := by
  intro hclaim
  obtain ⟨d1, d2, hne, hcol⟩ := exists_calculateHash_collision
    (getGenesisBlock.index + 1) getGenesisBlock.hash 1465154706
  have hv : isValidNewBlock (generateNextBlock getGenesisBlock 1465154706 d1)
      getGenesisBlock = true := genNextValid _ _ _
  have h4 := (hclaim _ _ hv).2.2.2 d2 (fun hc => hne hc.symm)
  have htrue : isValidNewBlock
      { generateNextBlock getGenesisBlock 1465154706 d1 with data := d2 }
      getGenesisBlock = true := by
    rw [validNew_iff]
    refine ⟨rfl, rfl, ?_⟩
    show calculateHash (getGenesisBlock.index + 1) getGenesisBlock.hash 1465154706 d2 =
      calculateHash (getGenesisBlock.index + 1) getGenesisBlock.hash 1465154706 d1
    exact hcol.symm
  rw [h4] at htrue
  exact Bool.noConfusion htrue

/-- C5, amended. From a valid link, altering the candidate's `index` or
`previousHash` to any different value always makes `isValidNewBlock` reject;
altering `timestamp` or `data` makes it reject exactly when the digest
recomputed over the altered fields differs from the stored hash (which
collision resistance makes overwhelmingly likely but not universal). -/
theorem tamper_detection_conditional (b p : Block) (hv : isValidNewBlock b p = true) :
    (∀ i, i ≠ b.index → isValidNewBlock { b with index := i } p = false) ∧
    (∀ s, s ≠ b.previousHash → isValidNewBlock { b with previousHash := s } p = false) ∧
    (∀ t, (isValidNewBlock { b with timestamp := t } p = false ↔
        calculateHash b.index b.previousHash t b.data ≠ b.hash)) ∧
    (∀ d, (isValidNewBlock { b with data := d } p = false ↔
        calculateHash b.index b.previousHash b.timestamp d ≠ b.hash)) := by
  obtain ⟨hi, hp, hh⟩ := (validNew_iff b p).mp hv
  refine ⟨?_, ?_, ?_, ?_⟩
  · intro i hne
    rw [Bool.eq_false_iff, ne_eq, validNew_iff]
    rintro ⟨hi2, -, -⟩
    exact hne (hi2.trans hi.symm)
  · intro s hne
    rw [Bool.eq_false_iff, ne_eq, validNew_iff]
    rintro ⟨-, hp2, -⟩
    exact hne (hp2.trans hp.symm)
  · intro t
    have hiff : isValidNewBlock { b with timestamp := t } p = true ↔
        calculateHash b.index b.previousHash t b.data = b.hash := by
      rw [validNew_iff]
      exact ⟨fun h => h.2.2, fun h => ⟨hi, hp, h⟩⟩
    rw [Bool.eq_false_iff, ne_eq, ne_eq]
    exact not_congr hiff
  · intro d
    have hiff : isValidNewBlock { b with data := d } p = true ↔
        calculateHash b.index b.previousHash b.timestamp d = b.hash := by
      rw [validNew_iff]
      exact ⟨fun h => h.2.2, fun h => ⟨hi, hp, h⟩⟩
    rw [Bool.eq_false_iff, ne_eq, ne_eq]
    exact not_congr hiff

/-- Witness for the amended C5: altering the index of a concrete valid block
makes the validator reject. -/
theorem tamper_detection_conditional_instance :
    isValidNewBlock
      { generateNextBlock getGenesisBlock 1465154706 "hello" with index := 7 }
      getGenesisBlock = false :=
  (tamper_detection_conditional _ _
    (genNextValid getGenesisBlock 1465154706 "hello")).1 7 (by decide)

/-- C6. When the freshly constructed block fails validation, the
`POST /mineBlock` pipeline leaves the in-memory chain unchanged but still
hands the invalid block to the store and responds with the block as
success, instead of the specified error response with nothing persisted. -/
theorem mineBlock_invalid_block_outcome :
    isValidNewBlock badBlockC6 getGenesisBlock = false ∧
    (mineBlockThen [getGenesisBlock] badBlockC6).blockchain = [getGenesisBlock] ∧
    (mineBlockThen [getGenesisBlock] badBlockC6).inserted = [badBlockC6] ∧
    (mineBlockThen [getGenesisBlock] badBlockC6).response =
      some (MineResponse.json badBlockC6) :=
  ⟨rfl, rfl, rfl, rfl⟩

/-- C7, counterexample. With an empty store, startup leaves the chain empty:
it is not the genesis-only chain, and it is not non-empty. -/
theorem startup_empty_store_not_genesis :
    startupChain [] = [] ∧ startupChain [] ≠ [getGenesisBlock] :=
  ⟨rfl, by simp [startupChain]⟩

/-- C7, amended. After startup the chain is exactly the stored blocks
returned by the store query (those with index at least zero, in store
order); in particular an empty store yields an empty chain, and a store
holding exactly the genesis block yields the genesis-only chain. Genesis
seeding is only ever done by the separate `POST /generategenesis` route. -/
theorem startupChain_eq_store (docs : List Block) :
    startupChain docs = docs.filter (fun blk => decide (0 ≤ blk.index)) ∧
    startupChain [] = [] ∧
    startupChain [getGenesisBlock] = [getGenesisBlock] ∧
    generateGenesisRoute = ([getGenesisBlock], getGenesisBlock) :=
  ⟨rfl, rfl, rfl, rfl⟩

/-- C8, counterexample. A call that does replace the chain still returns no
boolean: the returned value is `none` (JavaScript `undefined`), not
`some true`. -/
theorem replaceChain_return_not_reported :
    (replaceChain [getGenesisBlock]
        [getGenesisBlock, generateNextBlock getGenesisBlock 1465154707 "w"]).1 =
      [getGenesisBlock, generateNextBlock getGenesisBlock 1465154707 "w"] ∧
    (replaceChain [getGenesisBlock]
        [getGenesisBlock, generateNextBlock getGenesisBlock 1465154707 "w"]).2 ≠
      some true := by
  have hcond : isValidChain
      [getGenesisBlock, generateNextBlock getGenesisBlock 1465154707 "w"] = true ∧
      [getGenesisBlock, generateNextBlock getGenesisBlock 1465154707 "w"].length >
        [getGenesisBlock].length :=
    ⟨validChain_two 1465154707 "w", by decide⟩
  unfold replaceChain
  rw [if_pos hcond]
  exact ⟨rfl, by simp⟩

/-- C8, amended. `replaceChain` has no return statement: every call returns
`undefined` (`none`), so whether replacement occurred is never reported to
the caller and is observable only through the chain state. -/
theorem replaceChain_returns_none (current candidate : List Block) :
    (replaceChain current candidate).2 = none := by
  unfold replaceChain
  split
  · rfl
  · rfl

/-- C9. The digest recomputed over the genesis block's own four fields never
equals its hard-coded 64-character hash literal (the recomputed digest has
128 characters), while every non-head element of any chain accepted by
`isValidChain` does satisfy the hash-consistency invariant — so the genesis
block alone among chain elements fails it. -/
theorem genesis_hash_not_recomputed :
    calculateHashForBlock getGenesisBlock ≠ getGenesisBlock.hash ∧
    ∀ (chain : List Block), isValidChain chain = true →
      ∀ i (h1 : 1 ≤ i) (h2 : i < chain.length),
        calculateHashForBlock (chain.get ⟨i, h2⟩) = (chain.get ⟨i, h2⟩).hash := by
  constructor
  · intro hEq
    have hlen := congrArg String.length hEq
    have h128 : (calculateHashForBlock getGenesisBlock).length = 128 := sha512hex_length _
    have h64 : getGenesisBlock.hash.length = 64 := rfl
    omega
  · intro chain hc i h1 h2
    have hlink := ((isValidChain_iff chain).mp hc).2.2 i h1 h2
    exact ((validNew_iff _ _).mp hlink).2.2

/-- Witness for C9: the genesis inequality together with the
hash-consistency of the second element of a concrete valid chain. -/
theorem genesis_hash_not_recomputed_instance :
    calculateHashForBlock getGenesisBlock ≠ getGenesisBlock.hash ∧
    calculateHashForBlock (generateNextBlock getGenesisBlock 1465154708 "q") =
      (generateNextBlock getGenesisBlock 1465154708 "q").hash :=
  ⟨genesis_hash_not_recomputed.1,
   genesis_hash_not_recomputed.2
     [getGenesisBlock, generateNextBlock getGenesisBlock 1465154708 "q"]
     (validChain_two 1465154708 "q") 1 (by decide) (by decide)⟩

/-- C10. The separator-free concatenation feeding the hasher is not
injective: `collideA` (timestamp `1`, data `"2x"`) and `collideB`
(timestamp `12`, data `"x"`) are distinct blocks sharing index and
`previousHash` whose hash inputs are the identical string, hence their
digests coincide and `isValidNewBlock` accepts both against the genesis
block with the same stored hash. -/
theorem hashInput_collision_blocks :
    collideA ≠ collideB ∧
    collideA.index = collideB.index ∧
    collideA.previousHash = collideB.previousHash ∧
    (collideA.timestamp, collideA.data) ≠ (collideB.timestamp, collideB.data) ∧
    hashInput collideA.index collideA.previousHash collideA.timestamp collideA.data =
      hashInput collideB.index collideB.previousHash collideB.timestamp collideB.data ∧
    calculateHashForBlock collideA = calculateHashForBlock collideB ∧
    isValidNewBlock collideA getGenesisBlock = true ∧
    isValidNewBlock collideB getGenesisBlock = true := by
  have hinput : hashInput collideA.index collideA.previousHash collideA.timestamp
      collideA.data =
      hashInput collideB.index collideB.previousHash collideB.timestamp collideB.data := by
    decide
  have hdig : calculateHashForBlock collideA = calculateHashForBlock collideB :=
    congrArg sha512hex hinput
  refine ⟨?_, rfl, rfl, by decide, hinput, hdig, ?_, ?_⟩
  · intro hAB
    have hts := congrArg Block.timestamp hAB
    exact absurd hts (by decide)
  · exact genNextValid getGenesisBlock 1 "2x"
  · rw [validNew_iff]
    exact ⟨rfl, rfl, hdig.symm⟩

end JSChain
